import Mathlib

/-!
Verification development for the zunis survey/refine integration core
(`zunis_lib/zunis/integration/flat_survey_integrator.py`) and the benchmark
integrands (`experiments/benchmarks/utils/integrands.py`,
`experiments/benchmarks/utils/integrands/gaussian.py`).

Floats are modelled as real numbers; torch tensors of shape `(batch, d)`
as lists of rows (`List (List ℝ)`), a row being one point of the hypercube.
The trainer and the posterior are opaque collaborators: they are modelled
as oracles (functions producing batches), since their code is outside the
integration module.
-/

namespace Zunis

/-- A point of the unit hypercube: one row of a `(batch, d)` tensor. -/
abbrev Point := List ℝ

/-- A sample batch `(x, p(x), f(x))` as returned by `sample_survey` /
`sample_refine`: points, per-point densities, per-point integrand values. -/
abbrev Batch := List Point × List ℝ × List ℝ

/-- The `phase` column of the integration history
(the strings `"survey"` / `"refine"` in the pandas DataFrame). -/
inductive Phase where
  | survey
  | refine
deriving DecidableEq

/-- One row of the integration-history DataFrame built by
`process_survey_step` / `process_refine_step`.  The `training record`
column is only set by the survey step (`none` models the missing key /
NaN of the refine rows); its payload type `α` is opaque. -/
structure Record (α : Type) where
  integral : ℝ
  error : ℝ
  n_points : ℕ
  phase : Phase
  trainingRecord : Option α

/-- The integration history: an ordered sequence of records
(the pandas DataFrame, rows in insertion order). -/
abbrev History (α : Type) := List (Record α)

/-- `PosteriorSurveySamplingIntegrator.empty_history`: a DataFrame with the
four columns and no rows. -/
def empty_history (α : Type) : History α := []

/-- The trainer collaborator, reduced to the one operation `sample_refine`
uses: `sample_forward(n)` returns a `(n, d+1)` tensor whose rows hold the
`d` coordinates of a point followed by its log-density (an oracle, since
the trainer code lives outside the integration module). -/
structure Trainer where
  sample_forward : ℕ → List (List ℝ)

/-- The posterior collaborator, reduced to its sampling capability:
drawing `n` points together with their densities. -/
structure Posterior where
  sample : ℕ → List Point × List ℝ

/-- State of a `PosteriorSurveySamplingIntegrator` after `__init__` resolved
the phase-specific parameters (`n_iter_survey = n_iter_survey or n_iter`,
etc.); `α` is the opaque training-record payload type. -/
structure Integrator (α : Type) where
  f : List Point → List ℝ
  model_trainer : Trainer
  posterior : Posterior
  n_iter_survey : ℕ
  n_iter_refine : ℕ
  n_points_survey : ℕ
  n_points_refine : ℕ
  use_survey : Bool
  integration_history : History α

/-- `PosteriorSurveySamplingIntegrator.__init__`: resolves each phase
parameter to its explicit value when given and to the shared default
otherwise, stores the flag `use_survey` and starts with an empty history. -/
def mkPosteriorSurveySamplingIntegrator (α : Type) (f : List Point → List ℝ)
    (trainer : Trainer) (posterior : Posterior)
    (n_iter : ℕ) (n_iter_survey n_iter_refine : Option ℕ)
    (n_points : ℕ) (n_points_survey n_points_refine : Option ℕ)
    (use_survey : Bool) : Integrator α :=
  { f := f
    model_trainer := trainer
    posterior := posterior
    n_iter_survey := n_iter_survey.getD n_iter
    n_iter_refine := n_iter_refine.getD n_iter
    n_points_survey := n_points_survey.getD n_points
    n_points_refine := n_points_refine.getD n_points
    use_survey := use_survey
    integration_history := empty_history α }

/-- `PosteriorSurveySamplingIntegrator.initialize` (the source method is
named `initialize`): resets the integration history to an empty one and
touches nothing else. -/
def Integrator.initializeRun {α : Type} (self : Integrator α) : Integrator α :=
  { self with integration_history := empty_history α }

/-- Modelled from the spec: `BasicStatefulTrainer.generate_target_batch_from_posterior`
(module `zunis.training.weighted_dataset.weighted_dataset_trainer`, not under
`src/`).  Per spec §6 (`Trainer.fit_weighted`) it draws a batch from the
posterior with its density, evaluates `f`, and returns the triple
`(x, p(x), f(x))`; the training side effect is opaque and not modelled. -/
def generate_target_batch_from_posterior (n_points : ℕ)
    (f : List Point → List ℝ) (posterior : Posterior) : Batch :=
  ((posterior.sample n_points).1, (posterior.sample n_points).2,
    f (posterior.sample n_points).1)

/-- `PosteriorSurveySamplingIntegrator.sample_survey`: defaults `n_points`
to `self.n_points_survey` and `f` to `self.f`, then forwards the batch
produced by `generate_target_batch_from_posterior` unchanged. -/
def Integrator.sample_survey {α : Type} (self : Integrator α)
    (n_points : Option ℕ) (f : Option (List Point → List ℝ)) : Batch :=
  generate_target_batch_from_posterior (n_points.getD self.n_points_survey)
    (f.getD self.f) self.posterior

/-- `PosteriorSurveySamplingIntegrator.sample_refine`: defaults `n_points`
to `self.n_points_refine` and `f` to `self.f`; draws `xj = sample_forward(n)`,
takes `x = xj[:, :-1]` (all but the last column), `px = exp(-xj[:, -1])`
(elementwise over the last column) and `fx = f(x)`. -/
noncomputable def Integrator.sample_refine {α : Type} (self : Integrator α)
    (n_points : Option ℕ) (f : Option (List Point → List ℝ)) : Batch :=
  let n := n_points.getD self.n_points_refine
  let g := f.getD self.f
  let xj := self.model_trainer.sample_forward n
  let x := xj.map List.dropLast
  let px := xj.map (fun row => Real.exp (-(row.getLastD 0)))
  let fx := g x
  (x, px, fx)

/-- `PosteriorSurveySamplingIntegrator.process_survey_step`: appends one row
`{integral, error = (integral_var / n_points) ** 0.5, n_points = x.shape[0],
phase = "survey", training record}` to the history (pandas `append` with
`ignore_index=True` adds the row at the end). -/
noncomputable def Integrator.process_survey_step {α : Type} (self : Integrator α)
    (sample : Batch) (integral integral_var : ℝ) (training_record : α) :
    Integrator α :=
  let n_points := sample.1.length
  { self with integration_history := self.integration_history ++
      [{ integral := integral
         error := Real.sqrt (integral_var / (n_points : ℝ))
         n_points := n_points
         phase := Phase.survey
         trainingRecord := some training_record }] }

/-- `PosteriorSurveySamplingIntegrator.process_refine_step`: appends one row
`{integral, error = (integral_var / n_points) ** 0.5, n_points = x.shape[0],
phase = "refine"}` (no training record) to the history. -/
noncomputable def Integrator.process_refine_step {α : Type} (self : Integrator α)
    (sample : Batch) (integral integral_var : ℝ) : Integrator α :=
  let n_points := sample.1.length
  { self with integration_history := self.integration_history ++
      [{ integral := integral
         error := Real.sqrt (integral_var / (n_points : ℝ))
         n_points := n_points
         phase := Phase.refine
         trainingRecord := none }] }

/-- The row selection of `finalize_integration`: the whole history when
`use_survey` holds, otherwise only the rows with `phase == "refine"`
(`history.loc[history["phase"] == "refine"]`). -/
def selectedData {α : Type} (history : History α) (use_survey : Bool) :
    History α :=
  if use_survey then history
  else history.filter (fun r => decide (r.phase = Phase.refine))

/-- `PosteriorSurveySamplingIntegrator.finalize_integration`: defaults the
`use_survey` argument to the construction flag, selects the rows, computes
`result = Σ(integral·n_points) / Σ n_points` and
`error = sqrt(Σ((error·n_points)^2) / (Σ n_points)^2)`, and returns
`(result, error, history)` with the full (unselected) history. -/
noncomputable def Integrator.finalize_integration {α : Type} (self : Integrator α)
    (use_survey : Option Bool) : ℝ × ℝ × History α :=
  let us := use_survey.getD self.use_survey
  let data := selectedData self.integration_history us
  let result := (data.map (fun r => r.integral * (r.n_points : ℝ))).sum /
    (data.map (fun r => ((r.n_points : ℕ) : ℝ))).sum
  let error := Real.sqrt
    ((data.map (fun r => (r.error * (r.n_points : ℝ)) ^ 2)).sum /
      ((data.map (fun r => ((r.n_points : ℕ) : ℝ))).sum) ^ 2)
  (result, error, self.integration_history)

/-- The pooled value exactly as the spec states it (§4.2):
`value = Σ(integral_i · n_i) / Σ(n_i)` over the selected records. -/
noncomputable def pooledValueSpec {α : Type} (data : History α) : ℝ :=
  (data.map (fun r => r.integral * (r.n_points : ℝ))).sum /
    (data.map (fun r => ((r.n_points : ℕ) : ℝ))).sum

/-- The pooled error exactly as the spec states it (§4.2):
`error = sqrt( Σ( (error_i · n_i)^2 ) ) / Σ(n_i)` over the selected records. -/
noncomputable def pooledErrorSpec {α : Type} (data : History α) : ℝ :=
  Real.sqrt ((data.map (fun r => (r.error * (r.n_points : ℝ)) ^ 2)).sum) /
    (data.map (fun r => ((r.n_points : ℕ) : ℝ))).sum

/-- A concrete integrator state holding the two literal records of spec §8:
`(integral=1.0, error=0.1, n=100)` recorded in the survey phase and
`(integral=2.0, error=0.2, n=300)` recorded in the refine phase. -/
noncomputable def twoRecordIntegrator : Integrator ℕ :=
  { f := fun l => l.map (fun _ => 1)
    model_trainer := { sample_forward := fun _ => [] }
    posterior := { sample := fun _ => ([], []) }
    n_iter_survey := 1
    n_iter_refine := 1
    n_points_survey := 100
    n_points_refine := 300
    use_survey := true
    integration_history :=
      [{ integral := 1, error := 1 / 10, n_points := 100, phase := Phase.survey,
         trainingRecord := some 0 },
       { integral := 2, error := 2 / 10, n_points := 300, phase := Phase.refine,
         trainingRecord := none }] }

lemma selectedData_sum_nonneg {α : Type} (data : History α) :
    0 ≤ (data.map (fun r => ((r.n_points : ℕ) : ℝ))).sum := by
  apply List.sum_nonneg
  intro a ha
  simp only [List.mem_map] at ha
  obtain ⟨r, _, rfl⟩ := ha
  positivity

lemma selectedData_sq_sum_nonneg {α : Type} (data : History α) :
    0 ≤ (data.map (fun r => (r.error * (r.n_points : ℝ)) ^ 2)).sum := by
  apply List.sum_nonneg
  intro a ha
  simp only [List.mem_map] at ha
  obtain ⟨r, _, rfl⟩ := ha
  positivity

lemma finalize_error_eq_spec {α : Type} (data : History α) :
    Real.sqrt ((data.map (fun r => (r.error * (r.n_points : ℝ)) ^ 2)).sum /
        ((data.map (fun r => ((r.n_points : ℕ) : ℝ))).sum) ^ 2)
      = pooledErrorSpec data := by
  rw [pooledErrorSpec, Real.sqrt_div (selectedData_sq_sum_nonneg data),
    Real.sqrt_sq (selectedData_sum_nonneg data)]

/-- C1: for every history and both settings of `use_survey`,
`finalize_integration` returns the value `Σ(integral_i·n_i)/Σ(n_i)` and the
error `sqrt(Σ((error_i·n_i)^2))/Σ(n_i)` computed over exactly the selected
records (all records when `use_survey` is true, only the refine-phase ones
when it is false); an omitted `use_survey` argument falls back to the flag
given at construction; and the two records `(1.0, 0.1, 100)` and
`(2.0, 0.2, 300)` pooled with `use_survey=True` yield value `1.75 = 7/4`
and error `sqrt(3700)/400`. -/
theorem C1_finalize_integration_pooling {α : Type} (self : Integrator α) :
    (∀ us : Bool,
        (self.finalize_integration (some us)).1
            = pooledValueSpec (selectedData self.integration_history us)
          ∧ (self.finalize_integration (some us)).2.1
            = pooledErrorSpec (selectedData self.integration_history us))
      ∧ self.finalize_integration none
          = self.finalize_integration (some self.use_survey)
      ∧ selectedData self.integration_history false
          = self.integration_history.filter
              (fun r => decide (r.phase = Phase.refine))
      ∧ (twoRecordIntegrator.finalize_integration (some true)).1 = 7 / 4
      ∧ (twoRecordIntegrator.finalize_integration (some true)).2.1
          = Real.sqrt 3700 / 400 := by
  refine ⟨fun us => ⟨rfl, ?_⟩, rfl, rfl, ?_, ?_⟩
  · exact finalize_error_eq_spec (selectedData self.integration_history us)
  · show ((1 : ℝ) * (100 : ℕ) + ((2 : ℝ) * (300 : ℕ) + 0)) /
      (((100 : ℕ) : ℝ) + (((300 : ℕ) : ℝ) + 0)) = 7 / 4
    norm_num
  · show Real.sqrt
        (((1 / 10 * ((100 : ℕ) : ℝ)) ^ 2 + ((2 / 10 * ((300 : ℕ) : ℝ)) ^ 2 + 0)) /
          (((100 : ℕ) : ℝ) + (((300 : ℕ) : ℝ) + 0)) ^ 2)
      = Real.sqrt 3700 / 400
    have h : (((1 : ℝ) / 10 * ((100 : ℕ) : ℝ)) ^ 2 +
        ((2 / 10 * ((300 : ℕ) : ℝ)) ^ 2 + 0)) /
          (((100 : ℕ) : ℝ) + (((300 : ℕ) : ℝ) + 0)) ^ 2 = 3700 / 400 ^ 2 := by
      norm_num
    rw [h, Real.sqrt_div (by norm_num : (0 : ℝ) ≤ 3700),
      Real.sqrt_sq (by norm_num : (0 : ℝ) ≤ 400)]

lemma getLastD_eq_getD_of_length {l : List ℝ} {d : ℕ} (h : l.length = d + 1)
    (e : ℝ) : l.getLastD e = l.getD d e := by
  rw [List.getLastD_eq_getLast?, List.getLast?_eq_getElem?,
    List.getD_eq_getElem?_getD, h]
  simp

lemma dropLast_eq_take_of_length {l : List ℝ} {d : ℕ} (h : l.length = d + 1) :
    l.dropLast = l.take d := by
  rw [List.dropLast_eq_take, h]
  simp

lemma getD_map_pos (xs : List (List ℝ)) (g : List ℝ → ℝ) (hg : ∀ b, 0 < g b)
    (i : ℕ) : 0 < (xs.map g).getD i 1 := by
  rcases lt_or_le i (xs.map g).length with h | h
  · rw [List.getD_eq_getElem _ _ h]
    rw [List.length_map] at h
    rw [List.getElem_map]
    exact hg _
  · rw [List.getD_eq_default _ _ h]
    exact one_pos

/-- C3: `sample_refine` returns `(x, px, fx)` where, whenever the trainer
output rows have length `d+1`, `x` is the matrix of the first `d` columns,
`px` is `exp(-(last column))` elementwise — hence every produced density is
strictly positive — and `fx = f x`; `n_points` defaults to the configured
refine batch size and `f` to the integrand given at construction.  (The
function reads the trainer through `sample_forward` only; it is a pure
function of the integrator state and performs no training update.) -/
theorem C3_sample_refine {α : Type} (self : Integrator α) (np : Option ℕ)
    (fOpt : Option (List Point → List ℝ)) (d : ℕ)
    (hd : ∀ r ∈ self.model_trainer.sample_forward (np.getD self.n_points_refine),
      r.length = d + 1) :
    (self.sample_refine np fOpt).1
        = (self.model_trainer.sample_forward (np.getD self.n_points_refine)).map
            (fun r => r.take d)
      ∧ (self.sample_refine np fOpt).2.1
        = (self.model_trainer.sample_forward (np.getD self.n_points_refine)).map
            (fun r => Real.exp (-(r.getD d 0)))
      ∧ (self.sample_refine np fOpt).2.2
        = (fOpt.getD self.f) ((self.sample_refine np fOpt).1)
      ∧ (∀ i : ℕ, 0 < ((self.sample_refine np fOpt).2.1).getD i 1)
      ∧ self.sample_refine none fOpt
        = self.sample_refine (some self.n_points_refine) fOpt := by
  refine ⟨?_, ?_, rfl, ?_, rfl⟩
  · exact List.map_congr_left (fun r hr => dropLast_eq_take_of_length (hd r hr))
  · exact List.map_congr_left
      (fun r hr => by rw [getLastD_eq_getD_of_length (hd r hr)])
  · intro i
    exact getD_map_pos _ _ (fun b => Real.exp_pos _) i

/-- A concrete integrator whose trainer emits the single row `[1/2, 3/10]`
(one point `x = [1/2]` in one dimension plus the log-density `3/10`) and
whose integrand maps every point to `1`. -/
noncomputable def oneRowIntegrator : Integrator ℕ :=
  { f := fun l => l.map (fun _ => 1)
    model_trainer := { sample_forward := fun _ => [[1 / 2, 3 / 10]] }
    posterior := { sample := fun _ => ([[1 / 2]], [0]) }
    n_iter_survey := 1
    n_iter_refine := 1
    n_points_survey := 1
    n_points_refine := 1
    use_survey := false
    integration_history := [] }

/-- Witness for C3 at the one-row trainer: the row-length hypothesis holds
with `d = 1` and the conclusion follows by applying the theorem. -/
theorem C3_sample_refine_witness :
    (∀ r ∈ oneRowIntegrator.model_trainer.sample_forward
        ((none : Option ℕ).getD oneRowIntegrator.n_points_refine),
        r.length = 1 + 1)
      ∧ ((oneRowIntegrator.sample_refine none none).1
          = (oneRowIntegrator.model_trainer.sample_forward
              ((none : Option ℕ).getD oneRowIntegrator.n_points_refine)).map
              (fun r => r.take 1)
        ∧ (oneRowIntegrator.sample_refine none none).2.1
          = (oneRowIntegrator.model_trainer.sample_forward
              ((none : Option ℕ).getD oneRowIntegrator.n_points_refine)).map
              (fun r => Real.exp (-(r.getD 1 0)))
        ∧ (oneRowIntegrator.sample_refine none none).2.2
          = ((none : Option (List Point → List ℝ)).getD oneRowIntegrator.f)
              ((oneRowIntegrator.sample_refine none none).1)
        ∧ (∀ i : ℕ, 0 < ((oneRowIntegrator.sample_refine none none).2.1).getD i 1)
        ∧ oneRowIntegrator.sample_refine none none
          = oneRowIntegrator.sample_refine (some oneRowIntegrator.n_points_refine)
              none) := by
  have h : ∀ r ∈ oneRowIntegrator.model_trainer.sample_forward
      ((none : Option ℕ).getD oneRowIntegrator.n_points_refine), r.length = 1 + 1 := by
    intro r hr
    simp only [oneRowIntegrator, List.mem_singleton] at hr
    rw [hr]
    rfl
  exact ⟨h, C3_sample_refine oneRowIntegrator none none 1 h⟩

/-- C4: for every sample batch `(x, px, fx)` with `n = x.length > 0` and every
`variance ≥ 0`, `process_survey_step` and `process_refine_step` each append
exactly one record at the end of the history, holding the given integral,
`error = sqrt(variance / n)` (which is non-negative), `n_points = n`, the
respective phase tag, and — for the survey step only — the opaque training
record. -/
theorem C4_process_steps {α : Type} (self : Integrator α) (x : List Point)
    (px fx : List ℝ) (integral v : ℝ) (tr : α)
    (hn : 0 < x.length) (hv : 0 ≤ v) :
    (self.process_survey_step (x, px, fx) integral v tr).integration_history
        = self.integration_history ++
          [{ integral := integral, error := Real.sqrt (v / (x.length : ℝ)),
             n_points := x.length, phase := Phase.survey,
             trainingRecord := some tr }]
      ∧ (self.process_refine_step (x, px, fx) integral v).integration_history
        = self.integration_history ++
          [{ integral := integral, error := Real.sqrt (v / (x.length : ℝ)),
             n_points := x.length, phase := Phase.refine,
             trainingRecord := none }]
      ∧ 0 ≤ Real.sqrt (v / (x.length : ℝ)) :=
  ⟨rfl, rfl, Real.sqrt_nonneg _⟩

/-- Witness for C4 on a one-point batch with zero variance. -/
theorem C4_process_steps_witness :
    0 < ([[(1 : ℝ) / 2]] : List Point).length ∧ (0 : ℝ) ≤ 0 ∧
      ((oneRowIntegrator.process_survey_step ([[(1 : ℝ) / 2]], [1], [1]) 1 0 7).integration_history
          = oneRowIntegrator.integration_history ++
            [{ integral := 1,
               error := Real.sqrt (0 / (([[(1 : ℝ) / 2]] : List Point).length : ℝ)),
               n_points := ([[(1 : ℝ) / 2]] : List Point).length,
               phase := Phase.survey, trainingRecord := some 7 }]
        ∧ (oneRowIntegrator.process_refine_step ([[(1 : ℝ) / 2]], [1], [1]) 1 0).integration_history
          = oneRowIntegrator.integration_history ++
            [{ integral := 1,
               error := Real.sqrt (0 / (([[(1 : ℝ) / 2]] : List Point).length : ℝ)),
               n_points := ([[(1 : ℝ) / 2]] : List Point).length,
               phase := Phase.refine, trainingRecord := none }]
        ∧ 0 ≤ Real.sqrt (0 / (([[(1 : ℝ) / 2]] : List Point).length : ℝ))) :=
  ⟨by norm_num, le_refl 0,
    C4_process_steps oneRowIntegrator [[(1 : ℝ) / 2]] [1] [1] 1 0 7
      (by norm_num) (le_refl 0)⟩

/-- `PosteriorSurveySamplingIntegrator.initialize_survey`: a no-op (`pass`). -/
def Integrator.initialize_survey {α : Type} (self : Integrator α) : Integrator α :=
  self

/-- `PosteriorSurveySamplingIntegrator.initialize_refine`: a no-op (`pass`). -/
def Integrator.initialize_refine {α : Type} (self : Integrator α) : Integrator α :=
  self

/-- `PosteriorSurveySamplingIntegrator.finalize_survey`: a no-op (`pass`). -/
def Integrator.finalize_survey {α : Type} (self : Integrator α) : Integrator α :=
  self

/-- `PosteriorSurveySamplingIntegrator.finalize_refine`: a no-op (`pass`). -/
def Integrator.finalize_refine {α : Type} (self : Integrator α) : Integrator α :=
  self

/-- The data of one survey iteration as handed to `process_survey_step` by
the driver: the sample batch, the per-iteration estimate `(integral,
variance)` and the opaque training record. -/
structure SurveyStep (α : Type) where
  sample : Batch
  integral : ℝ
  variance : ℝ
  training_record : α

/-- The data of one refine iteration as handed to `process_refine_step`. -/
structure RefineStep where
  sample : Batch
  integral : ℝ
  variance : ℝ

/-- Modelled from the spec: `SurveyRefineIntegratorAPI.integrate`
(`integratorAPI.py` is not under `src/`).  Per spec §4.1 the driver runs the
fixed sequence `initialize` → `initialize_survey` → survey iterations (each
calling `process_survey_step`) → `finalize_survey` → `initialize_refine` →
refine iterations (each calling `process_refine_step`) → `finalize_refine` →
`finalize_integration(use_survey)`.  The per-iteration samples and estimator
values are abstracted as the given step lists, one entry per iteration,
because the sampling and the estimator computation happen in the missing
driver and trainer code. -/
noncomputable def Integrator.integrate {α : Type} (self : Integrator α)
    (surveySteps : List (SurveyStep α)) (refineSteps : List RefineStep) :
    (ℝ × ℝ × History α) × Integrator α :=
  let s0 := (self.initializeRun).initialize_survey
  let s1 := surveySteps.foldl
    (fun s st => s.process_survey_step st.sample st.integral st.variance
      st.training_record) s0
  let s2 := (s1.finalize_survey).initialize_refine
  let s3 := refineSteps.foldl
    (fun s st => s.process_refine_step st.sample st.integral st.variance) s2
  let s4 := s3.finalize_refine
  (s4.finalize_integration none, s4)

lemma foldl_survey_steps_eq {α : Type} (l : List (SurveyStep α))
    (s : Integrator α) :
    l.foldl (fun s st => s.process_survey_step st.sample st.integral st.variance
        st.training_record) s
      = { s with integration_history := (s.integration_history ++
          l.map (fun st =>
            { integral := st.integral
              error := Real.sqrt (st.variance / (st.sample.1.length : ℝ))
              n_points := st.sample.1.length
              phase := Phase.survey
              trainingRecord := some st.training_record })) } := by
  induction l generalizing s with
  | nil => simp
  | cons a t ih =>
    rw [List.foldl_cons, ih]
    simp [Integrator.process_survey_step]

lemma foldl_refine_steps_eq {α : Type} (l : List RefineStep)
    (s : Integrator α) :
    l.foldl (fun s st => s.process_refine_step st.sample st.integral
        st.variance) s
      = { s with integration_history := (s.integration_history ++
          l.map (fun st =>
            { integral := st.integral
              error := Real.sqrt (st.variance / (st.sample.1.length : ℝ))
              n_points := st.sample.1.length
              phase := Phase.refine
              trainingRecord := none })) } := by
  induction l generalizing s with
  | nil => simp
  | cons a t ih =>
    rw [List.foldl_cons, ih]
    simp [Integrator.process_refine_step]

/-- C6: `integrate` resets the history via `initialize` at the start of every
call, so the run's outcome is independent of whatever history the instance
held before, while the trainer and posterior persist; and within a run the
history is append-only — each process step appends exactly one record at the
end, so the final history lists the survey records followed by the refine
records in iteration order. -/
theorem C6_history_lifecycle {α : Type} (self : Integrator α) (h0 : History α)
    (ss : List (SurveyStep α)) (rs : List RefineStep) :
    ({ self with integration_history := h0 }).integrate ss rs
        = self.integrate ss rs
      ∧ (self.integrate ss rs).2.integration_history
        = ss.map (fun st =>
            { integral := st.integral
              error := Real.sqrt (st.variance / (st.sample.1.length : ℝ))
              n_points := st.sample.1.length
              phase := Phase.survey
              trainingRecord := some st.training_record }) ++
          rs.map (fun st =>
            { integral := st.integral
              error := Real.sqrt (st.variance / (st.sample.1.length : ℝ))
              n_points := st.sample.1.length
              phase := Phase.refine
              trainingRecord := none })
      ∧ (self.integrate ss rs).2.model_trainer = self.model_trainer
      ∧ (self.integrate ss rs).2.posterior = self.posterior
      ∧ (∀ (s : Integrator α) (sample : Batch) (i v : ℝ) (tr : α),
          (s.process_survey_step sample i v tr).integration_history
            = s.integration_history ++
              [{ integral := i
                 error := Real.sqrt (v / (sample.1.length : ℝ))
                 n_points := sample.1.length
                 phase := Phase.survey
                 trainingRecord := some tr }])
      ∧ (∀ (s : Integrator α) (sample : Batch) (i v : ℝ),
          (s.process_refine_step sample i v).integration_history
            = s.integration_history ++
              [{ integral := i
                 error := Real.sqrt (v / (sample.1.length : ℝ))
                 n_points := sample.1.length
                 phase := Phase.refine
                 trainingRecord := none }]) := by
  refine ⟨rfl, ?_, ?_, ?_, fun s sample i v tr => rfl, fun s sample i v => rfl⟩ <;>
    simp [Integrator.integrate, Integrator.initializeRun,
      Integrator.initialize_survey, Integrator.initialize_refine,
      Integrator.finalize_survey, Integrator.finalize_refine,
      foldl_survey_steps_eq, foldl_refine_steps_eq, empty_history]

/-- Modelled from the spec: `UniformSampler` (module `zunis.models.flows.sampling`,
not under `src/`).  Per spec §4.3/§6 it is a fixed uniform distribution over
the `d`-dimensional unit hypercube reporting density `1` for every point it
produces; the random point stream is abstracted as an oracle `pts`. -/
def UniformSampler (d : ℕ) (pts : ℕ → List Point) : Posterior :=
  { sample := fun n => (pts n, (pts n).map (fun _ => 1)) }

/-- `FlatSurveySamplingIntegrator.__init__`: builds `UniformSampler(d)` and
forwards everything else unchanged to the parent
`PosteriorSurveySamplingIntegrator.__init__` (the extra `self.d = d` stored
by the subclass is not part of the integrator behaviour and is omitted). -/
def mkFlatSurveySamplingIntegrator (α : Type) (f : List Point → List ℝ)
    (trainer : Trainer) (d : ℕ) (pts : ℕ → List Point)
    (n_iter : ℕ) (n_iter_survey n_iter_refine : Option ℕ)
    (n_points : ℕ) (n_points_survey n_points_refine : Option ℕ)
    (use_survey : Bool) : Integrator α :=
  mkPosteriorSurveySamplingIntegrator α f trainer (UniformSampler d pts)
    n_iter n_iter_survey n_iter_refine n_points n_points_survey n_points_refine
    use_survey

lemma getD_map_const_one (l : List Point) (j : ℕ) :
    (l.map (fun _ => (1 : ℝ))).getD j 1 = 1 := by
  rcases lt_or_le j (l.map (fun _ => (1 : ℝ))).length with h | h
  · rw [List.getD_eq_getElem _ _ h]
    rw [List.length_map] at h
    rw [List.getElem_map]
  · rw [List.getD_eq_default _ _ h]

/-- C8: `FlatSurveySamplingIntegrator` differs from the posterior integrator
only in substituting the uniform sampler (density ≡ 1) as the survey
posterior: the constructor delegates with `posterior = UniformSampler(d)`;
`sample_refine`, both process steps and `finalize_integration` never read the
`posterior` field, so replacing the posterior leaves them unchanged; and the
flat survey batch is plain Monte Carlo — uniform points with all densities
equal to `1`. -/
theorem C8_flat_is_posterior_with_uniform_sampler {α : Type}
    (self : Integrator α) (p : Posterior) (d : ℕ) (pts : ℕ → List Point)
    (f : List Point → List ℝ) (trainer : Trainer)
    (n_iter : ℕ) (nis nir : Option ℕ) (n_points : ℕ) (nps npr : Option ℕ)
    (us : Bool) (np : Option ℕ) (fOpt : Option (List Point → List ℝ))
    (sample : Batch) (i v : ℝ) (tr : α) (usOpt : Option Bool) :
    mkFlatSurveySamplingIntegrator α f trainer d pts n_iter nis nir n_points
        nps npr us
      = mkPosteriorSurveySamplingIntegrator α f trainer (UniformSampler d pts)
          n_iter nis nir n_points nps npr us
    ∧ (∀ (n j : ℕ), (((UniformSampler d pts).sample n).2).getD j 1 = 1)
    ∧ ({ self with posterior := p }).sample_refine np fOpt
        = self.sample_refine np fOpt
    ∧ ({ self with posterior := p }).process_survey_step sample i v tr
        = { (self.process_survey_step sample i v tr) with posterior := p }
    ∧ ({ self with posterior := p }).process_refine_step sample i v
        = { (self.process_refine_step sample i v) with posterior := p }
    ∧ ({ self with posterior := p }).finalize_integration usOpt
        = self.finalize_integration usOpt
    ∧ ({ self with posterior := UniformSampler d pts }).sample_survey np fOpt
        = (pts (np.getD self.n_points_survey),
           (pts (np.getD self.n_points_survey)).map (fun _ => 1),
           (fOpt.getD self.f) (pts (np.getD self.n_points_survey))) := by
  refine ⟨rfl, ?_, rfl, rfl, rfl, rfl, rfl⟩
  intro n j
  exact getD_map_const_one (pts n) j

/-- A broadcastable gaussian parameter: `mu` and `s` are either scalars or
`d`-vectors, as accepted by `DiagonalGaussianIntegrand.__init__`; `elt j` is
the value the torch broadcasting uses at column `j`. -/
inductive GParam where
  | scalar (c : ℝ)
  | vector (v : List ℝ)

/-- The column-`j` value of a broadcast parameter. -/
def GParam.elt : GParam → ℕ → ℝ
  | GParam.scalar c, _ => c
  | GParam.vector v, j => v.getD j 0

/-- `DiagonalGaussianIntegrand.evaluate_integrand` of
`experiments/benchmarks/utils/integrands.py`:
`norm * exp(-((x - mu) / s).square().sum(axis=1))`, per batch row. -/
noncomputable def DiagonalGaussian_evaluate_integrands_py (mu s : GParam)
    (norm : ℝ) (x : List Point) : List ℝ :=
  x.map (fun row =>
    norm * Real.exp (-((row.mapIdx
      (fun j xi => ((xi - mu.elt j) / s.elt j) ^ 2)).sum)))

/-- `DiagonalGaussianIntegrand.evaluate_integrand` of
`experiments/benchmarks/utils/integrands/gaussian.py`:
`norm * exp(-((x - mu) / s).square().sum(axis=1))`, per batch row. -/
noncomputable def DiagonalGaussian_evaluate_gaussian_py (mu s : GParam)
    (norm : ℝ) (x : List Point) : List ℝ :=
  x.map (fun row =>
    norm * Real.exp (-((row.mapIdx
      (fun j xi => ((xi - mu.elt j) / s.elt j) ^ 2)).sum)))

/-- C9: the two `DiagonalGaussianIntegrand.evaluate_integrand` duplicates are
extensionally equal — for equal parameters and every batch both return
`norm * exp(-Σ_j ((x_j - mu_j)/s_j)^2)` row by row — so the classes are
interchangeable as integrands. -/
theorem C9_gaussian_duplicates_extensionally_equal (mu s : GParam) (norm : ℝ)
    (x : List Point) :
    DiagonalGaussian_evaluate_integrands_py mu s norm x
        = DiagonalGaussian_evaluate_gaussian_py mu s norm x
      ∧ DiagonalGaussian_evaluate_integrands_py mu s norm x
        = x.map (fun row =>
            norm * Real.exp (-((row.mapIdx
              (fun j xi => ((xi - mu.elt j) / s.elt j) ^ 2)).sum))) :=
  ⟨rfl, rfl⟩

/-- `HyperrectangleVolumeIntegrand.inequality` of
`experiments/benchmarks/utils/integrands.py`: the boolean tensor
`x[:, split_dim] < frac` (a strict comparison). -/
noncomputable def hyperrectangle_inequality (split_dim : ℕ) (frac : ℝ)
    (x : List Point) : List Bool :=
  x.map (fun row => decide (row.getD split_dim 0 < frac))

/-- `VolumeIntegrand.evaluate_integrand` specialised to the hyperrectangle:
`self.inequality(x).to(x.dtype)`, i.e. the boolean mask cast to `1.0`/`0.0`. -/
noncomputable def hyperrectangle_evaluate_integrand (split_dim : ℕ) (frac : ℝ)
    (x : List Point) : List ℝ :=
  (hyperrectangle_inequality split_dim frac x).map
    (fun b => if b then (1 : ℝ) else 0)

/-- `HyperrectangleVolumeIntegrand.integral`: returns `frac`. -/
def hyperrectangle_integral (frac : ℝ) : ℝ := frac

/-- The constructor guards of `HyperrectangleVolumeIntegrand.__init__`:
`assert 0 <= split_dim < d` and `assert 0. <= frac <= 1.`. -/
def hyperrectangle_init_ok (d split_dim : ℕ) (frac : ℝ) : Prop :=
  split_dim < d ∧ 0 ≤ frac ∧ frac ≤ 1

/-- C10: the hyperrectangle integrand evaluates each point to `1.0` exactly
when `x[split_dim] < frac` holds strictly and to `0.0` otherwise — in
particular a point whose coordinate equals `frac` gets `0.0`, the strict `<`
of the code, not the `<=` of the class docstring — `integral()` returns
`frac`, and the constructor accepts the whole closed range `0 ≤ frac ≤ 1`
including both degenerate boundaries. -/
theorem C10_hyperrectangle_strict_inequality :
    (∀ (sd : ℕ) (frac : ℝ) (x : List Point),
        hyperrectangle_evaluate_integrand sd frac x
          = x.map (fun row => if row.getD sd 0 < frac then (1 : ℝ) else 0))
      ∧ (∀ frac : ℝ, hyperrectangle_evaluate_integrand 0 frac [[frac]] = [0])
      ∧ (∀ frac : ℝ, hyperrectangle_integral frac = frac)
      ∧ hyperrectangle_init_ok 1 0 0
      ∧ hyperrectangle_init_ok 1 0 1 := by
  refine ⟨?_, ?_, fun frac => rfl, ?_, ?_⟩
  · intro sd frac x
    simp [hyperrectangle_evaluate_integrand, hyperrectangle_inequality,
      List.map_map, Function.comp]
  · intro frac
    simp [hyperrectangle_evaluate_integrand, hyperrectangle_inequality,
      lt_irrefl]
  · exact ⟨one_pos, le_refl 0, zero_le_one⟩
  · exact ⟨one_pos, zero_le_one, le_refl 1⟩

/-- C2 counterexample: the posterior of `oneRowIntegrator` reports density
`0` for the point it produces, yet `sample_survey` returns the batch —
points, the zero density, integrand values — as a normal value: no
`DegenerateDensityError` (a name that appears nowhere in the code) is
raised, so the run does not fail at the point of detection as the claim
states. -/
theorem C2_counterexample :
    oneRowIntegrator.sample_survey none none = ([[1 / 2]], [0], [1])
      ∧ ((oneRowIntegrator.sample_survey none none).2.1).getD 0 1 = 0 :=
  ⟨rfl, rfl⟩

/-- C2 amended: the integration code performs no density validation at all.
`sample_survey` forwards the trainer-generated batch unchanged (a zero or
negative density produced by the posterior is propagated silently into the
estimator), while `sample_refine`'s densities are `exp(-log_density)` and
hence strictly positive in exact arithmetic, so no check is needed there. -/
theorem C2_no_density_check {α : Type} (self : Integrator α) (np : Option ℕ)
    (fOpt : Option (List Point → List ℝ)) :
    self.sample_survey np fOpt
        = generate_target_batch_from_posterior (np.getD self.n_points_survey)
            (fOpt.getD self.f) self.posterior
      ∧ (self.sample_survey np fOpt).2.1
        = (self.posterior.sample (np.getD self.n_points_survey)).2
      ∧ (∀ i : ℕ, 0 < ((self.sample_refine np fOpt).2.1).getD i 1) :=
  ⟨rfl, rfl, fun i => getD_map_pos _ _ (fun _ => Real.exp_pos _) i⟩

/-- C5 counterexample: `finalize_integration` on an empty history returns a
numeric triple instead of raising: the code has no emptiness check and no
`EmptyHistoryError` exists anywhere in it; the weighted sums are `0` and the
`0/0` division yields NaN under numpy — the junk value `0` in this
real-number embedding — not an exception. -/
theorem C5_counterexample :
    oneRowIntegrator.finalize_integration (some true) = (0, 0, []) := by
  simp [Integrator.finalize_integration, selectedData, oneRowIntegrator]

/-- C5 amended: `finalize_integration` performs no emptiness check: whenever
the selected records are empty (zero iterations recorded, or
`use_survey=False` with no refine records) it still returns a numeric triple,
whose value and error are the `0/0` junk value (NaN in numpy, `0` in the
real-number embedding), together with the unfiltered history. -/
theorem C5_finalize_empty_returns_junk {α : Type} (self : Integrator α)
    (us : Option Bool)
    (h : selectedData self.integration_history (us.getD self.use_survey) = []) :
    self.finalize_integration us = (0, 0, self.integration_history) := by
  simp [Integrator.finalize_integration, h]

/-- Witness for the amended C5 at a concretely empty history. -/
theorem C5_finalize_empty_returns_junk_witness :
    selectedData oneRowIntegrator.integration_history
        ((some false).getD oneRowIntegrator.use_survey) = []
      ∧ oneRowIntegrator.finalize_integration (some false)
        = (0, 0, oneRowIntegrator.integration_history) :=
  ⟨rfl, C5_finalize_empty_returns_junk oneRowIntegrator (some false) rfl⟩

/-- `Integrand.__call__` of `experiments/benchmarks/utils/integrands.py`:
asserts the input is a 2-D batch whose second dimension is `d`
(`AssertionError("Shape mismatch, expected (*, d)")`) before evaluating the
integrand.  In the list-of-rows tensor model, a `(batch, d)` tensor is a
list of rows of length `d`, so the two shape asserts become the row-length
check. -/
def integrandCall (d : ℕ) (evaluate_integrand : List Point → List ℝ)
    (x : List Point) : Except String (List ℝ) :=
  if x.all (fun row => row.length == d) then Except.ok (evaluate_integrand x)
  else Except.error "Shape mismatch"

/-- An integrator whose integrand returns an empty value list for every
batch, so its `f`-output batch dimension disagrees with `x`. -/
noncomputable def mismatchedIntegrator : Integrator ℕ :=
  { oneRowIntegrator with f := fun _ => [] }

/-- C7 counterexample: with an integrand returning an empty value list,
`sample_refine` produces a batch whose `fx` has batch dimension `0` while
`x` has batch dimension `1`, and returns it as a normal value — no
`ShapeMismatchError` (a name that appears nowhere in the code) and no error
of any kind is raised for a density/value batch-dimension mismatch. -/
theorem C7_counterexample :
    mismatchedIntegrator.sample_refine none none
        = ([[1 / 2]], [Real.exp (-(3 / 10))], [])
      ∧ (mismatchedIntegrator.sample_refine none none).2.2.length
        ≠ (mismatchedIntegrator.sample_refine none none).1.length :=
  ⟨rfl, by
    show ([] : List ℝ).length ≠ ([[(1 : ℝ) / 2]] : List Point).length
    simp⟩

/-- C7 amended: the only shape validation is the assert in
`Integrand.__call__`, which rejects (with an `AssertionError` whose message
reads "Shape mismatch") exactly the batches some row of which does not have
length `d`; nothing compares the densities' or the integrand output's batch
dimension with `x` — `sample_refine` returns whatever `f` produced,
unchecked. -/
theorem C7_shape_check_only_on_x (d : ℕ)
    (evaluate_integrand : List Point → List ℝ) (x : List Point) :
    ((∀ r ∈ x, r.length = d) →
        integrandCall d evaluate_integrand x = Except.ok (evaluate_integrand x))
      ∧ ((∃ r ∈ x, r.length ≠ d) →
        integrandCall d evaluate_integrand x = Except.error "Shape mismatch")
      ∧ (∀ {α : Type} (self : Integrator α) (np : Option ℕ)
          (fOpt : Option (List Point → List ℝ)),
          (self.sample_refine np fOpt).2.2
            = (fOpt.getD self.f)
                ((self.model_trainer.sample_forward
                  (np.getD self.n_points_refine)).map List.dropLast)) := by
  refine ⟨?_, ?_, fun self np fOpt => rfl⟩
  · intro h
    rw [integrandCall, if_pos]
    rw [List.all_eq_true]
    intro r hr
    exact beq_iff_eq.mpr (h r hr)
  · rintro ⟨r, hr, hne⟩
    rw [integrandCall, if_neg]
    rw [List.all_eq_true]
    intro hall
    exact hne (beq_iff_eq.mp (hall r hr))

/-- Witness for the amended C7: a well-shaped batch passes, a batch with a
wrong row length is rejected, at concrete inputs. -/
theorem C7_shape_check_only_on_x_witness :
    integrandCall 1 (fun l => l.map (fun _ => (1 : ℝ))) [[(1 : ℝ) / 2]]
        = Except.ok [1]
      ∧ integrandCall 2 (fun l => l.map (fun _ => (1 : ℝ))) [[(1 : ℝ) / 2]]
        = Except.error "Shape mismatch" :=
  ⟨(C7_shape_check_only_on_x 1 (fun l => l.map (fun _ => (1 : ℝ)))
      [[(1 : ℝ) / 2]]).1
      (by intro r hr; rw [List.mem_singleton] at hr; rw [hr]; rfl),
    (C7_shape_check_only_on_x 2 (fun l => l.map (fun _ => (1 : ℝ)))
      [[(1 : ℝ) / 2]]).2.1
      ⟨[(1 : ℝ) / 2], List.mem_singleton.mpr rfl, by simp⟩⟩

end Zunis
